import Mathlib

/-!
Verification of the SDRAM_controller cocotb verification environment.

Shallow embedding of the bus transactor BFMs (sim/cocotb/tb/bus.py and
sim/cocotb/tests/bus.py), the response monitor (bus_read_response), the
constrained-random stimulus generators (tests/sdram/cocotb_random_test.py and
tests/test_random.py), and the configuration loader (tb/env.py).

Randomness is embedded nondeterministically: each call to the random library
is fed from an oracle stream, reduced into its legal range with a modulus, so
every concrete execution of the Python corresponds to an oracle and every
oracle to a possible execution. Clock-cycle behaviour is embedded by indexing
signal samples with a cycle counter; blocking waits become fuel-bounded loops
returning none when the awaited condition never arrives within the fuel.
-/

/-- Request-channel signals of the generic system bus driven by
sim/cocotb/tb/bus.py (valid/write encoding). -/
structure TbBus where
  bus_req_valid : Nat
  bus_req_write : Nat
  bus_req_addr : Nat
  bus_req_wdata : Nat
  bus_req_byteenable : Nat
  deriving Repr, DecidableEq

/-- Embeds bus_init of sim/cocotb/tb/bus.py: all request signals zero. -/
def bus_init : TbBus := ⟨0, 0, 0, 0, 0⟩

/-- Request-channel signals of the bus driven by sim/cocotb/tests/bus.py
(separate read/write lines, plus burst fields set up by its bus_init). -/
structure TestBus where
  bus_req_read : Nat
  bus_req_write : Nat
  bus_req_addr : Nat
  bus_req_burst : Nat
  bus_req_burst_len : Nat
  bus_req_wdata : Nat
  bus_req_byteenable : Nat
  deriving Repr, DecidableEq

/-- Embeds the ready-polling loop shared by the transactors: after driving the
request, the coroutine awaits a clock edge (arriving at cycle `start`), then
re-samples `ready` each cycle until it observes it asserted, threading the
driven bus state `s` through untouched (the loop body contains no signal
assignment). Returns the acceptance cycle and the state still driven there,
or none when `ready` stays low for all `fuel` sampled cycles. -/
def waitReady {B : Type} (ready : Nat → Bool) (s : B) : Nat → Nat → Option (Nat × B)
  | _, 0 => none
  | k, fuel + 1 => if ready k then some (k, s) else waitReady ready s (k + 1) fuel

/-- Embeds single_write of sim/cocotb/tb/bus.py. Drives valid, write, addr,
wdata, byteenable; waits for ready; then clears write, addr, wdata and
byteenable (the source leaves bus_req_valid untouched). Result: acceptance
cycle, the state held while waiting, and the state after the clearing step. -/
def single_write (s : TbBus) (addr data byte_en : Nat) (ready : Nat → Bool)
    (fuel : Nat) : Option (Nat × TbBus × TbBus) :=
  let driven : TbBus := ⟨1, 1, addr, data, byte_en⟩
  match waitReady ready driven 1 fuel with
  | none => none
  | some (k, h) => some (k, h, ⟨h.bus_req_valid, 0, 0, 0, 0⟩)

/-- Embeds single_read of sim/cocotb/tb/bus.py. Drives valid, write := 0,
addr, byteenable (wdata untouched); waits for ready; then clears valid, addr
and byteenable. -/
def single_read (s : TbBus) (addr byte_en : Nat) (ready : Nat → Bool)
    (fuel : Nat) : Option (Nat × TbBus × TbBus) :=
  let driven : TbBus := ⟨1, 0, addr, s.bus_req_wdata, byte_en⟩
  match waitReady ready driven 1 fuel with
  | none => none
  | some (k, h) => some (k, h, ⟨0, h.bus_req_write, 0, h.bus_req_wdata, 0⟩)

/-- Embeds bus_write of sim/cocotb/tests/bus.py. Drives write, addr, wdata,
byteenable; waits for ready; then clears those four fields (read and the burst
fields untouched). -/
def bus_write (s : TestBus) (addr data byte_en : Nat) (ready : Nat → Bool)
    (fuel : Nat) : Option (Nat × TestBus × TestBus) :=
  let driven : TestBus :=
    ⟨s.bus_req_read, 1, addr, s.bus_req_burst, s.bus_req_burst_len, data, byte_en⟩
  match waitReady ready driven 1 fuel with
  | none => none
  | some (k, h) =>
    some (k, h, ⟨h.bus_req_read, 0, 0, h.bus_req_burst, h.bus_req_burst_len, 0, 0⟩)

/-- Embeds bus_read of sim/cocotb/tests/bus.py. Drives read, addr, byteenable;
waits for ready; then clears those three fields. -/
def bus_read (s : TestBus) (addr byte_en : Nat) (ready : Nat → Bool)
    (fuel : Nat) : Option (Nat × TestBus × TestBus) :=
  let driven : TestBus :=
    ⟨1, s.bus_req_write, addr, s.bus_req_burst, s.bus_req_burst_len,
      s.bus_req_wdata, byte_en⟩
  match waitReady ready driven 1 fuel with
  | none => none
  | some (k, h) =>
    some (k, h, ⟨0, h.bus_req_write, 0, h.bus_req_burst, h.bus_req_burst_len,
      h.bus_req_wdata, 0⟩)

/-- Outcome of one invocation of bus_read_response of sim/cocotb/tests/bus.py. -/
inductive MonitorResult where
  | passed (count : Nat)
  | failed (idx expectedVal actualVal : Nat)
  | blocked
  | singleShot (data : Nat)
  deriving Repr, DecidableEq

/-- Embeds the queued loop of bus_read_response: for each entry of the
expectation list, await the next observed response and assert equality; the
assert aborts the coroutine at the first mismatch. `i` counts consumed
entries. blocked models awaiting a response that never arrives. -/
def busReadResponseGo : List Nat → List Nat → Nat → MonitorResult
  | [], _, i => .passed i
  | _ :: _, [], _ => .blocked
  | e :: es, o :: os, i =>
    if o = e then busReadResponseGo es os (i + 1) else .failed i e o

/-- Embeds bus_read_response of sim/cocotb/tests/bus.py. The Python guard
`if expected:` is truthy only for a non-None, non-empty list; otherwise the
monitor awaits a single response and returns its data to the caller. -/
def bus_read_response (expected : Option (List Nat)) (observed : List Nat) :
    MonitorResult :=
  match expected with
  | some (e :: es) => busReadResponseGo (e :: es) observed 0
  | _ =>
    match observed with
    | [] => .blocked
    | o :: _ => .singleShot o

/-- Number of assert comparisons the queued monitor evaluates before it
returns or aborts. -/
def monitorComparisons : List Nat → List Nat → Nat
  | [], _ => 0
  | _ :: _, [] => 0
  | e :: es, o :: os => if o = e then monitorComparisons es os + 1 else 1

/-- One iteration of the operation-generation loop shared by
random_read_write (tests/sdram/cocotb_random_test.py, lines 45-53) and
test_random_read_write (tests/test_random.py, lines 47-55). `op` is the coin
flip (true is read, matching op = 1 in the source), `rv` the oracle value for
the iteration's index draw. A read draws its index from valid_idx; a write
draws from the whole pool and appends the index to valid_idx when new. -/
def genStep (numSeq : Nat) (op : Bool) (rv : Nat) (valid : List Nat) :
    Nat × List Nat :=
  if op then (valid.getD (rv % valid.length) 0, valid)
  else
    let idx := rv % numSeq
    (idx, if idx ∈ valid then valid else valid ++ [idx])

/-- The generation loop proper: `n` remaining iterations, `i` the iteration
counter indexing the oracle streams, `valid` the current valid_idx list. -/
def genRest (numSeq : Nat) (b : Nat → Bool) (r : Nat → Nat) :
    Nat → Nat → List Nat → List (Bool × Nat)
  | 0, _, _ => []
  | n + 1, i, valid =>
    let p := genStep numSeq (b i) (r i) valid
    (b i, p.1) :: genRest numSeq b r n (i + 1) p.2

/-- The valid_idx list as left behind after `n` iterations of the loop. -/
def genValid (numSeq : Nat) (b : Nat → Bool) (r : Nat → Nat) :
    Nat → Nat → List Nat → List Nat
  | 0, _, valid => valid
  | n + 1, i, valid => genValid numSeq b r n (i + 1) (genStep numSeq (b i) (r i) valid).2

/-- Embeds the operation-sequence generation of random_read_write in
sim/cocotb/tests/sdram/cocotb_random_test.py: a mandatory first write at a
uniformly drawn index (oracle i0), then num_op - 1 loop iterations. -/
def random_read_write (numOp numSeq i0 : Nat) (b : Nat → Bool) (r : Nat → Nat) :
    List (Bool × Nat) :=
  let idx := i0 % numSeq
  (false, idx) :: genRest numSeq b r (numOp - 1) 0 [idx]

/-- Embeds the operation-sequence generation of test_random_read_write in
sim/cocotb/tests/test_random.py: identical except the loop runs num_op times
after the mandatory first write. -/
def test_random_read_write (numOp numSeq i0 : Nat) (b : Nat → Bool) (r : Nat → Nat) :
    List (Bool × Nat) :=
  let idx := i0 % numSeq
  (false, idx) :: genRest numSeq b r numOp 0 [idx]

/-- Embeds the expected-queue construction of test_random_read_write
(tests/test_random.py, lines 57-63): for each read in the sequence, append the
pool's stored data value at that read's index. -/
def mkExpected (pool : List (Nat × Nat)) : List (Bool × Nat) → List Nat
  | [] => []
  | (op, idx) :: rest =>
    if op then (pool.getD idx (0, 0)).2 :: mkExpected pool rest
    else mkExpected pool rest

/-- Embeds get_clk_period of sim/cocotb/tb/env.py: 1000 / clk_freq rounded to
one decimal digit, as the rational round(10000 / clk_freq) / 10. -/
def get_clk_period (clk_freq : Nat) : ℚ :=
  ((round ((10000 : ℚ) / (clk_freq : ℚ)) : ℤ) : ℚ) / 10

/-- Configuration signals driven by load_config of sim/cocotb/tb/env.py. -/
structure SdramConfig where
  cfg_burst_length : Nat
  cfg_burst_type : Nat
  cfg_cas_latency : Nat
  cfg_burst_mode : Nat
  deriving Repr, DecidableEq

/-- Embeds load_config of sim/cocotb/tb/env.py: the cas parameter is
reassigned from the clock period before being driven, exactly as in the
source (`cas = 2` when the period exceeds 10 ns, else `cas = 3`). -/
def load_config (clk_freq burst_len burst_type cas write_burst_mode : Nat) :
    SdramConfig :=
  let clock_period := get_clk_period clk_freq
  let cas := if clock_period > 10 then 2 else 3
  ⟨burst_len, burst_type, cas, write_burst_mode⟩

/-- Modelled from the spec: the SDRAM device under test is hardware outside
src; per the round-trip property of the spec, a single-beat write stores its
data at its address and a later read returns the most recently stored value. -/
def memWrite (mem : Nat → Option Nat) (a d : Nat) : Nat → Option Nat :=
  fun x => if x = a then some d else mem x

/-- Embeds the orchestrator loop of random_read_write
(tests/sdram/cocotb_random_test.py, lines 59-69) over the spec-modelled
memory: a write stores the pool's data at the pool's address for its index; a
read records the value the memory returns for its index's address. Returns
the list of (pool index, observed value) pairs for the reads, in issue
order. -/
def runOps (pool : List (Nat × Nat)) :
    List (Bool × Nat) → (Nat → Option Nat) → List (Nat × Option Nat)
  | [], _ => []
  | (op, idx) :: rest, mem =>
    if op then (idx, mem (pool.getD idx (0, 0)).1) :: runOps pool rest mem
    else runOps pool rest (memWrite mem (pool.getD idx (0, 0)).1 (pool.getD idx (0, 0)).2)

/-- The generation loop emits exactly one operation per iteration. -/
theorem genRest_length (numSeq : Nat) (b : Nat → Bool) (r : Nat → Nat) :
    ∀ (n i : Nat) (valid : List Nat), (genRest numSeq b r n i valid).length = n := by
  intro n
  induction n with
  | zero => intro i valid; rfl
  | succ n ih => intro i valid; simp [genRest, ih]

/-- Claim C1, counterexample: with queued expectations 1, 2 and observed
responses 5, 7 (both mismatching), the monitor aborts with the fatal assert at
the first mismatch after a single comparison; the second mismatch is never
examined, contradicting the claim that the run is non-fatal and continues to
surface every mismatch. -/
theorem monitor_stops_at_first_mismatch_cex :
    bus_read_response (some [1, 2]) [5, 7] = .failed 0 1 5 ∧
      monitorComparisons [1, 2] [5, 7] = 1 := by decide

/-- Claim C1 (amended): in queued mode a mismatching response fails the
assert, which is fatal: the monitor aborts at the first mismatch, having
performed exactly one comparison, and no subsequent response is compared. -/
theorem monitor_mismatch_fatal (e o : Nat) (es os : List Nat) (h : o ≠ e) :
    bus_read_response (some (e :: es)) (o :: os) = .failed 0 e o ∧
      monitorComparisons (e :: es) (o :: os) = 1 := by
  refine ⟨?_, ?_⟩
  · simp [bus_read_response, busReadResponseGo, h]
  · simp [monitorComparisons, h]

/-- Claim C1 witness: the amended theorem applied at a concrete mismatch. -/
theorem monitor_mismatch_fatal_witness :
    (9 : Nat) ≠ 3 ∧
      (bus_read_response (some [3]) [9] = .failed 0 3 9 ∧
        monitorComparisons [3] [9] = 1) :=
  ⟨by decide, monitor_mismatch_fatal 3 9 [] [] (by decide)⟩

/-- Claim C2, failing evaluation: with ready asserted at the first sampled
cycle, single_write started from the bus_init state returns with
bus_req_write, bus_req_addr, bus_req_wdata and bus_req_byteenable cleared but
bus_req_valid still driven to 1, whereas single_read clears bus_req_valid to
0: the write transactor leaves a stale asserted valid behind when it
returns. -/
theorem single_write_leaves_valid_asserted :
    single_write bus_init 1 2 3 (fun _ => true) 1 =
        some (1, ⟨1, 1, 1, 2, 3⟩, ⟨1, 0, 0, 0, 0⟩) ∧
      single_read bus_init 1 3 (fun _ => true) 1 =
        some (1, ⟨1, 0, 1, 0, 3⟩, ⟨0, 0, 0, 0, 0⟩) := by decide

/-- Claim C7, counterexample: test_random_read_write called with num_op = 1
produces 2 operations, not 1: its loop schedules num_op further operations
after the mandatory first write. -/
theorem test_random_length_cex :
    (test_random_read_write 1 1 0 (fun _ => false) (fun _ => 0)).length = 2 := by
  decide

/-- Claim C7 (amended): random_read_write of
tests/sdram/cocotb_random_test.py produces exactly num_op operations (the
mandatory first write plus num_op - 1 random ones), while
test_random_read_write of tests/test_random.py produces num_op + 1 operations
(the mandatory first write plus num_op random ones). -/
theorem sequence_length_amended (numOp numSeq i0 : Nat) (b : Nat → Bool)
    (r : Nat → Nat) (h : 1 ≤ numOp) :
    (random_read_write numOp numSeq i0 b r).length = numOp ∧
      (test_random_read_write numOp numSeq i0 b r).length = numOp + 1 := by
  refine ⟨?_, ?_⟩
  · simp [random_read_write, genRest_length]
    omega
  · simp [test_random_read_write, genRest_length]

/-- Claim C7 witness: the amended theorem applied at num_op = 3. -/
theorem sequence_length_amended_witness :
    1 ≤ 3 ∧
      ((random_read_write 3 2 0 (fun _ => true) (fun _ => 0)).length = 3 ∧
        (test_random_read_write 3 2 0 (fun _ => true) (fun _ => 0)).length = 3 + 1) :=
  ⟨by decide, sequence_length_amended 3 2 0 (fun _ => true) (fun _ => 0) (by decide)⟩

/-- Claim C8, counterexample: a response observed while the expectation list
is empty (or absent) is returned as data to the caller via the single-shot
branch, not recorded as a fatal protocol violation. -/
theorem empty_queue_response_returned_cex :
    bus_read_response (some []) [42] = .singleShot 42 ∧
      bus_read_response none [42] = .singleShot 42 := by decide

/-- Claim C8 (amended): an empty or absent expectation list is falsy, so the
monitor runs in single-shot mode and returns the next observed response value
as data; and once a queued run has drained its list the coroutine returns,
ignoring any later response; no protocol violation is recorded in either
case. -/
theorem empty_queue_single_shot (d e : Nat) (rest : List Nat) :
    bus_read_response (some []) (d :: rest) = .singleShot d ∧
      bus_read_response none (d :: rest) = .singleShot d ∧
      bus_read_response (some [e]) (e :: rest) = .passed 1 := by
  refine ⟨rfl, rfl, ?_⟩
  simp [bus_read_response, busReadResponseGo]

/-- If ready is low on every sampled cycle before n and high at n, the polling
loop started at `start` returns exactly (n, s), for any sufficient fuel. -/
theorem waitReady_some {B : Type} (ready : Nat → Bool) (s : B) :
    ∀ (fuel start n : Nat), start ≤ n →
      (∀ j, j < n → start ≤ j → ready j = false) →
      ready n = true → n < start + fuel →
      waitReady ready s start fuel = some (n, s) := by
  intro fuel
  induction fuel with
  | zero => intro start n h1 h2 h3 h4; omega
  | succ fuel ih =>
    intro start n h1 h2 h3 h4
    cases hs : ready start with
    | true =>
      have heq : start = n := by
        rcases Nat.eq_or_lt_of_le h1 with h | h
        · exact h
        · exact absurd hs (by simp [h2 start h le_rfl])
      subst heq
      simp [waitReady, hs]
    | false =>
      have hlt : start < n := by
        rcases Nat.eq_or_lt_of_le h1 with h | h
        · subst h; rw [h3] at hs; cases hs
        · exact h
      simp only [waitReady, hs, Bool.false_eq_true, if_false]
      exact ih (start + 1) n hlt (fun j hj hj2 => h2 j hj (by omega)) h3 (by omega)

/-- If ready never asserts, the polling loop returns none for every fuel. -/
theorem waitReady_none {B : Type} (ready : Nat → Bool) (s : B)
    (hr : ∀ j, ready j = false) :
    ∀ (fuel start : Nat), waitReady ready s start fuel = none := by
  intro fuel
  induction fuel with
  | zero => intro start; rfl
  | succ fuel ih => intro start; simp [waitReady, hr start, ih]

/-- Claim C5: each transactor call drives its request once, holds it
unchanged while re-sampling ready every cycle, and completes exactly at the
first cycle (at or after cycle 1) where ready is observed asserted — no
matter how many consecutive cycles ready was held low — returning the held
request equal to the originally driven one; when ready never asserts the call
never returns (none for every fuel). -/
theorem transactor_waits_for_ready (sT : TbBus) (sB : TestBus)
    (addr data byte_en n fuel : Nat) (ready : Nat → Bool)
    (h1 : 1 ≤ n) (h2 : ∀ j, j < n → 1 ≤ j → ready j = false)
    (h3 : ready n = true) (h4 : n < 1 + fuel) :
    single_write sT addr data byte_en ready fuel =
        some (n, ⟨1, 1, addr, data, byte_en⟩, ⟨1, 0, 0, 0, 0⟩) ∧
      single_read sT addr byte_en ready fuel =
        some (n, ⟨1, 0, addr, sT.bus_req_wdata, byte_en⟩,
          ⟨0, 0, 0, sT.bus_req_wdata, 0⟩) ∧
      bus_write sB addr data byte_en ready fuel =
        some (n, ⟨sB.bus_req_read, 1, addr, sB.bus_req_burst,
            sB.bus_req_burst_len, data, byte_en⟩,
          ⟨sB.bus_req_read, 0, 0, sB.bus_req_burst, sB.bus_req_burst_len, 0, 0⟩) ∧
      bus_read sB addr byte_en ready fuel =
        some (n, ⟨1, sB.bus_req_write, addr, sB.bus_req_burst,
            sB.bus_req_burst_len, sB.bus_req_wdata, byte_en⟩,
          ⟨0, sB.bus_req_write, 0, sB.bus_req_burst, sB.bus_req_burst_len,
            sB.bus_req_wdata, 0⟩) ∧
      ∀ (ready2 : Nat → Bool) (fuel2 : Nat), (∀ j, ready2 j = false) →
        single_write sT addr data byte_en ready2 fuel2 = none ∧
          single_read sT addr byte_en ready2 fuel2 = none ∧
          bus_write sB addr data byte_en ready2 fuel2 = none ∧
          bus_read sB addr byte_en ready2 fuel2 = none := by
  have key : ∀ (B : Type) (s : B), waitReady ready s 1 fuel = some (n, s) :=
    fun B s => waitReady_some ready s fuel 1 n h1 h2 h3 (by omega)
  refine ⟨?_, ?_, ?_, ?_, ?_⟩
  · simp [single_write, key]
  · simp [single_read, key]
  · simp [bus_write, key]
  · simp [bus_read, key]
  · intro ready2 fuel2 hr
    exact ⟨by simp [single_write, waitReady_none ready2 _ hr],
      by simp [single_read, waitReady_none ready2 _ hr],
      by simp [bus_write, waitReady_none ready2 _ hr],
      by simp [bus_read, waitReady_none ready2 _ hr]⟩

/-- Claim C5 witness: ready held low at cycles 1 and 2 and asserted at cycle
3; each transactor completes at cycle 3 with the held request intact. -/
theorem transactor_waits_for_ready_witness :
    ((1 ≤ 3) ∧ (∀ j, j < 3 → 1 ≤ j → (fun j => j == 3 : Nat → Bool) j = false) ∧
        ((fun j => j == 3 : Nat → Bool) 3 = true) ∧ 3 < 1 + 5) ∧
      (single_write bus_init 7 9 3 (fun j => j == 3) 5 =
          some (3, ⟨1, 1, 7, 9, 3⟩, ⟨1, 0, 0, 0, 0⟩) ∧
        single_read bus_init 7 3 (fun j => j == 3) 5 =
          some (3, ⟨1, 0, 7, bus_init.bus_req_wdata, 3⟩,
            ⟨0, 0, 0, bus_init.bus_req_wdata, 0⟩) ∧
        bus_write ⟨4, 4, 4, 4, 4, 4, 4⟩ 7 9 3 (fun j => j == 3) 5 =
          some (3, ⟨4, 1, 7, 4, 4, 9, 3⟩, ⟨4, 0, 0, 4, 4, 0, 0⟩) ∧
        bus_read ⟨4, 4, 4, 4, 4, 4, 4⟩ 7 3 (fun j => j == 3) 5 =
          some (3, ⟨1, 4, 7, 4, 4, 4, 3⟩, ⟨0, 4, 0, 4, 4, 4, 0⟩) ∧
        ∀ (ready2 : Nat → Bool) (fuel2 : Nat), (∀ j, ready2 j = false) →
          single_write bus_init 7 9 3 ready2 fuel2 = none ∧
            single_read bus_init 7 3 ready2 fuel2 = none ∧
            bus_write ⟨4, 4, 4, 4, 4, 4, 4⟩ 7 9 3 ready2 fuel2 = none ∧
            bus_read ⟨4, 4, 4, 4, 4, 4, 4⟩ 7 3 ready2 fuel2 = none) :=
  ⟨⟨by decide, by decide, by decide, by decide⟩,
    transactor_waits_for_ready bus_init ⟨4, 4, 4, 4, 4, 4, 4⟩ 7 9 3 3 5
      (fun j => j == 3) (by decide) (by decide) (by decide) (by decide)⟩

/-- A uniformly drawn element of a non-empty list is a member of it. -/
theorem getD_mod_mem (l : List Nat) (hl : l ≠ []) (m : Nat) :
    l.getD (m % l.length) 0 ∈ l := by
  have hlen : 0 < l.length := List.length_pos.mpr hl
  have hm : m % l.length < l.length := Nat.mod_lt _ hlen
  rw [List.getD_eq_getElem l 0 hm]
  exact List.getElem_mem hm

/-- The valid_idx list never shrinks across a generation step. -/
theorem genStep_snd_mono (numSeq : Nat) (op : Bool) (rv : Nat)
    (valid : List Nat) (x : Nat) (hx : x ∈ valid) :
    x ∈ (genStep numSeq op rv valid).2 := by
  cases op with
  | true => simpa [genStep] using hx
  | false =>
    by_cases hmem : rv % numSeq ∈ valid
    · simpa [genStep, hmem] using hx
    · simp [genStep, hmem]
      exact Or.inl hx

/-- Any member of the valid_idx list after a step was already a member or is
the index of the write the step just scheduled. -/
theorem genStep_snd_cases (numSeq : Nat) (op : Bool) (rv : Nat)
    (valid : List Nat) (x : Nat) (hx : x ∈ (genStep numSeq op rv valid).2) :
    x ∈ valid ∨ (op = false ∧ x = rv % numSeq) := by
  cases op with
  | true => simp [genStep] at hx; exact Or.inl hx
  | false =>
    by_cases hmem : rv % numSeq ∈ valid
    · simp [genStep, hmem] at hx; exact Or.inl hx
    · simp [genStep, hmem] at hx
      rcases hx with hx | hx
      · exact Or.inl hx
      · exact Or.inr ⟨rfl, hx⟩

/-- A write step puts its own index into the valid_idx list. -/
theorem genStep_write_new (numSeq : Nat) (rv : Nat) (valid : List Nat) :
    rv % numSeq ∈ (genStep numSeq false rv valid).2 := by
  by_cases hmem : rv % numSeq ∈ valid
  · simpa [genStep, hmem] using hmem
  · simp [genStep, hmem]

/-- A step keeps the valid_idx list non-empty. -/
theorem genStep_snd_ne_nil (numSeq : Nat) (op : Bool) (rv : Nat)
    (valid : List Nat) (hv : valid ≠ []) :
    (genStep numSeq op rv valid).2 ≠ [] := by
  cases op with
  | true => simpa [genStep] using hv
  | false =>
    by_cases hmem : rv % numSeq ∈ valid
    · simpa [genStep, hmem] using hv
    · simp [genStep, hmem]

/-- The index a read step draws is a member of the current valid_idx list. -/
theorem genStep_read_mem (numSeq : Nat) (rv : Nat) (valid : List Nat)
    (hv : valid ≠ []) :
    (genStep numSeq true rv valid).1 ∈ valid := by
  simpa [genStep] using getD_mod_mem valid hv rv

/-- Every read emitted by the generation loop draws its index either from the
incoming valid_idx list or from a write emitted earlier in the loop's own
output. -/
theorem genRest_reads (numSeq : Nat) (b : Nat → Bool) (r : Nat → Nat) :
    ∀ (n i : Nat) (valid : List Nat), valid ≠ [] → ∀ k, k < n →
      ((genRest numSeq b r n i valid).getD k (false, 0)).1 = true →
      ((genRest numSeq b r n i valid).getD k (false, 0)).2 ∈ valid ∨
        (false, ((genRest numSeq b r n i valid).getD k (false, 0)).2) ∈
          (genRest numSeq b r n i valid).take k := by
  intro n
  induction n with
  | zero => intro i valid hv k hk; omega
  | succ n ih =>
    intro i valid hv k hk
    cases k with
    | zero =>
      intro hread
      cases hop : b i with
      | false => simp [genRest, hop] at hread
      | true =>
        left
        simp only [genRest, hop, List.getD_cons_zero]
        exact genStep_read_mem numSeq (r i) valid hv
    | succ k =>
      intro hread
      simp only [genRest, List.getD_cons_succ] at hread
      have hv' := genStep_snd_ne_nil numSeq (b i) (r i) valid hv
      have htail := ih (i + 1) _ hv' k (by omega) hread
      simp only [genRest, List.getD_cons_succ, List.take_succ_cons]
      rcases htail with hmem | hmem
      · rcases genStep_snd_cases numSeq (b i) (r i) valid _ hmem with h | ⟨hop, hidx⟩
        · exact Or.inl h
        · have hfst : (genStep numSeq false (r i) valid).1 = r i % numSeq := by
            simp [genStep]
          right
          rw [hidx, hop, hfst]
          exact List.mem_cons_self _ _
      · exact Or.inr (List.mem_cons_of_mem _ hmem)

/-- An index in the valid_idx list is never removed by later iterations. -/
theorem genValid_mono (numSeq : Nat) (b : Nat → Bool) (r : Nat → Nat) :
    ∀ (n i : Nat) (valid : List Nat) (x : Nat), x ∈ valid →
      x ∈ genValid numSeq b r n i valid := by
  intro n
  induction n with
  | zero => intro i valid x hx; exact hx
  | succ n ih =>
    intro i valid x hx
    simp only [genValid]
    exact ih (i + 1) _ x (genStep_snd_mono numSeq (b i) (r i) valid x hx)

/-- After any number of loop iterations, the valid_idx list holds exactly the
incoming indices plus the indices of the writes the loop has emitted. -/
theorem genValid_mem_iff (numSeq : Nat) (b : Nat → Bool) (r : Nat → Nat) :
    ∀ (n i : Nat) (valid : List Nat) (x : Nat),
      x ∈ genValid numSeq b r n i valid ↔
        x ∈ valid ∨ (false, x) ∈ genRest numSeq b r n i valid := by
  intro n
  induction n with
  | zero => intro i valid x; simp [genValid, genRest]
  | succ n ih =>
    intro i valid x
    simp only [genValid, genRest]
    rw [ih]
    constructor
    · rintro (hx | hx)
      · rcases genStep_snd_cases numSeq (b i) (r i) valid x hx with h | ⟨hop, hidx⟩
        · exact Or.inl h
        · refine Or.inr ?_
          rw [hop, hidx]
          simp [genStep]
      · exact Or.inr (List.mem_cons_of_mem _ hx)
    · rintro (hx | hx)
      · exact Or.inl (genStep_snd_mono numSeq (b i) (r i) valid x hx)
      · rcases List.mem_cons.mp hx with h | h
        · have hop : b i = false := by
            have h1 := congrArg Prod.fst h
            simp only [] at h1
            exact h1.symm
          have hx2 : x = r i % numSeq := by
            have h2 := congrArg Prod.snd h
            simp [hop, genStep] at h2
            exact h2
          left
          rw [hop, hx2]
          exact genStep_write_new numSeq (r i) valid
        · exact Or.inr h

/-- In the full generated sequence (mandatory first write at index d0
followed by the loop output), every read operation's index equals the index
of a write scheduled strictly earlier. -/
theorem fullSeq_reads (numSeq : Nat) (b : Nat → Bool) (r : Nat → Nat)
    (d0 n : Nat) :
    ∀ k, (((false, d0) :: genRest numSeq b r n 0 [d0]).getD k (false, 0)).1 = true →
      (false, (((false, d0) :: genRest numSeq b r n 0 [d0]).getD k (false, 0)).2) ∈
        ((false, d0) :: genRest numSeq b r n 0 [d0]).take k := by
  intro k hread
  cases k with
  | zero => simp at hread
  | succ k =>
    simp only [List.getD_cons_succ] at hread ⊢
    simp only [List.take_succ_cons]
    by_cases hk : k < n
    · have hdisj := genRest_reads numSeq b r n 0 [d0] (by simp) k hk hread
      rcases hdisj with hmem | hmem
      · rw [List.mem_singleton] at hmem
        rw [hmem]
        exact List.mem_cons_self _ _
      · exact List.mem_cons_of_mem _ hmem
    · exfalso
      have hlen : (genRest numSeq b r n 0 [d0]).length ≤ k := by
        rw [genRest_length]; omega
      rw [List.getD_eq_default _ _ hlen] at hread
      simp at hread

/-- Claim C3: in both generators every read operation's pool index was
targeted by a write scheduled strictly earlier in the sequence, and the
valid_idx list after any number of loop iterations contains exactly the
indices targeted by the writes scheduled so far (the mandatory first write's
index plus the loop's writes): it grows only via writes. -/
theorem generated_reads_target_written_indices
    (numOp numSeq i0 : Nat) (b : Nat → Bool) (r : Nat → Nat) :
    (∀ k, ((random_read_write numOp numSeq i0 b r).getD k (false, 0)).1 = true →
      (false, ((random_read_write numOp numSeq i0 b r).getD k (false, 0)).2) ∈
        (random_read_write numOp numSeq i0 b r).take k) ∧
      (∀ k, ((test_random_read_write numOp numSeq i0 b r).getD k (false, 0)).1 = true →
        (false, ((test_random_read_write numOp numSeq i0 b r).getD k (false, 0)).2) ∈
          (test_random_read_write numOp numSeq i0 b r).take k) ∧
      (∀ n x, x ∈ genValid numSeq b r n 0 [i0 % numSeq] ↔
        (false, x) ∈ (false, i0 % numSeq) :: genRest numSeq b r n 0 [i0 % numSeq]) := by
  refine ⟨?_, ?_, ?_⟩
  · intro k hread
    have h := fullSeq_reads numSeq b r (i0 % numSeq) (numOp - 1) k
      (by simpa [random_read_write] using hread)
    simpa [random_read_write] using h
  · intro k hread
    have h := fullSeq_reads numSeq b r (i0 % numSeq) numOp k
      (by simpa [test_random_read_write] using hread)
    simpa [test_random_read_write] using h
  · intro n x
    rw [genValid_mem_iff]
    simp [List.mem_cons, Prod.mk.injEq]

/-- Claim C3 witness: with the read-biased oracle, the second operation of
the generated sequence is a read and its index appears as a write in the
one-element prefix before it. -/
theorem generated_reads_target_written_indices_witness :
    (false, ((random_read_write 2 3 5 (fun _ => true) (fun _ => 0)).getD 1 (false, 0)).2) ∈
      (random_read_write 2 3 5 (fun _ => true) (fun _ => 0)).take 1 :=
  (generated_reads_target_written_indices 2 3 5 (fun _ => true) (fun _ => 0)).1 1 (by decide)

/-- Claim C4: in both generators the first scheduled operation is a write at
the uniformly drawn pool index i0 mod numSeq, that index is within the pool,
and it is in the valid_idx list before any further operation is scheduled
(and stays in it forever after). -/
theorem first_operation_is_write (numOp numSeq i0 : Nat) (b : Nat → Bool)
    (r : Nat → Nat) (h : 1 ≤ numSeq) :
    (random_read_write numOp numSeq i0 b r).getD 0 (true, 0) = (false, i0 % numSeq) ∧
      (test_random_read_write numOp numSeq i0 b r).getD 0 (true, 0) = (false, i0 % numSeq) ∧
      i0 % numSeq < numSeq ∧
      ∀ n, i0 % numSeq ∈ genValid numSeq b r n 0 [i0 % numSeq] := by
  refine ⟨by simp [random_read_write], by simp [test_random_read_write],
    Nat.mod_lt _ (by omega), ?_⟩
  intro n
  exact genValid_mono numSeq b r n 0 [i0 % numSeq] _ (by simp)

/-- Claim C4 witness: the theorem applied at numSeq = 3, i0 = 5. -/
theorem first_operation_is_write_witness :
    1 ≤ 3 ∧
      ((random_read_write 2 3 5 (fun _ => true) (fun _ => 0)).getD 0 (true, 0) =
          (false, 5 % 3) ∧
        (test_random_read_write 2 3 5 (fun _ => true) (fun _ => 0)).getD 0 (true, 0) =
          (false, 5 % 3) ∧
        5 % 3 < 3 ∧
        ∀ n, 5 % 3 ∈ genValid 3 (fun _ => true) (fun _ => 0) n 0 [5 % 3]) :=
  ⟨by decide, first_operation_is_write 2 3 5 (fun _ => true) (fun _ => 0) (by decide)⟩

/-- The queued monitor, started with `i` entries already consumed, finishes
with all entries consumed exactly when the observed responses begin with the
expected list, pairing the i-th response with the i-th entry. -/
theorem busReadResponseGo_passed_iff :
    ∀ (es os : List Nat) (i : Nat),
      busReadResponseGo es os i = .passed (i + es.length) ↔
        os.take es.length = es := by
  intro es
  induction es with
  | nil => intro os i; simp [busReadResponseGo]
  | cons e es ih =>
    intro os i
    cases os with
    | nil => simp [busReadResponseGo]
    | cons o os =>
      by_cases heq : o = e
      · subst heq
        simp only [busReadResponseGo, eq_self_iff_true, if_true, List.length_cons,
          List.take_succ_cons, List.cons.injEq, true_and]
        have harith : i + (es.length + 1) = (i + 1) + es.length := by omega
        rw [harith, ih os (i + 1)]
      · simp [busReadResponseGo, heq, List.take_succ_cons, List.cons.injEq]

/-- The expected queue is the in-order image of the sequence's reads under
the pool's stored data. -/
theorem mkExpected_eq (pool : List (Nat × Nat)) :
    ∀ seq : List (Bool × Nat),
      mkExpected pool seq =
        (seq.filter fun p => p.1).map fun p => (pool.getD p.2 (0, 0)).2 := by
  intro seq
  induction seq with
  | nil => rfl
  | cons q rest ih =>
    obtain ⟨op, idx⟩ := q
    cases op with
    | true => simp [mkExpected, List.filter_cons, ih]
    | false => simp [mkExpected, List.filter_cons, ih]

/-- Claim C6: the expected-response queue contains exactly one entry per read
of the generated sequence, in sequence order, each equal to the pool's stored
data value at that read's index; and the queued monitor consumes the entries
strictly in order, comparing the i-th observed response against the i-th
entry: it finishes with all entries consumed exactly when the observed
responses begin with the expected list. -/
theorem expected_queue_per_read (pool : List (Nat × Nat))
    (seq : List (Bool × Nat)) (expected observed : List Nat)
    (h : expected ≠ []) :
    mkExpected pool seq =
        (seq.filter fun p => p.1).map (fun p => (pool.getD p.2 (0, 0)).2) ∧
      (bus_read_response (some expected) observed = .passed expected.length ↔
        observed.take expected.length = expected) := by
  refine ⟨mkExpected_eq pool seq, ?_⟩
  obtain ⟨e, es, rfl⟩ := List.exists_cons_of_ne_nil h
  simp only [bus_read_response]
  have hgo := busReadResponseGo_passed_iff (e :: es) observed 0
  simpa using hgo

/-- Claim C6 witness: a pool of two entries, a sequence write-read-read, and
a matching observed response stream. -/
theorem expected_queue_per_read_witness :
    ([3, 4] : List Nat) ≠ [] ∧
      (mkExpected [(7, 3), (8, 4)] [(false, 0), (true, 0), (true, 1)] =
          (([(false, 0), (true, 0), (true, 1)] : List (Bool × Nat)).filter
              (fun p => p.1)).map
            (fun p => (([(7, 3), (8, 4)] : List (Nat × Nat)).getD p.2 (0, 0)).2) ∧
        (bus_read_response (some [3, 4]) [3, 4, 9] =
            .passed ([3, 4] : List Nat).length ↔
          ([3, 4, 9] : List Nat).take ([3, 4] : List Nat).length = [3, 4])) :=
  ⟨by decide,
    expected_queue_per_read [(7, 3), (8, 4)] [(false, 0), (true, 0), (true, 1)]
      [3, 4] [3, 4, 9] (by decide)⟩

/-- The rounded clock period exceeds 10 ns exactly for integer clock
frequencies between 1 and 99. -/
theorem get_clk_period_gt_ten_iff (f : Nat) (hf : 1 ≤ f) :
    10 < get_clk_period f ↔ f ≤ 99 := by
  have hf0 : (0 : ℚ) < (f : ℚ) := by
    have : 0 < f := by omega
    exact_mod_cast this
  by_cases hc : f ≤ 99
  · simp only [hc, iff_true]
    have hfq : (f : ℚ) ≤ 99 := by exact_mod_cast hc
    have hx : (201 : ℚ) / 2 ≤ (10000 : ℚ) / (f : ℚ) := by
      rw [div_le_div_iff (by norm_num) hf0]
      nlinarith
    have hr : (101 : ℤ) ≤ round ((10000 : ℚ) / (f : ℚ)) := by
      rw [round_eq]
      apply Int.le_floor.mpr
      push_cast
      linarith
    unfold get_clk_period
    have hq : (101 : ℚ) ≤ ((round ((10000 : ℚ) / (f : ℚ)) : ℤ) : ℚ) := by
      exact_mod_cast hr
    rw [lt_div_iff (by norm_num : (0 : ℚ) < 10)]
    linarith
  · simp only [hc, iff_false, not_lt]
    have hfq : (100 : ℚ) ≤ (f : ℚ) := by
      have : 100 ≤ f := by omega
      exact_mod_cast this
    have hx : (10000 : ℚ) / (f : ℚ) ≤ 100 := by
      rw [div_le_iff hf0]
      nlinarith
    have hr : round ((10000 : ℚ) / (f : ℚ)) ≤ 100 := by
      rw [round_eq]
      have hlt : ⌊(10000 : ℚ) / (f : ℚ) + 1 / 2⌋ < 101 := by
        apply Int.floor_lt.mpr
        push_cast
        linarith
      omega
    unfold get_clk_period
    have hq : ((round ((10000 : ℚ) / (f : ℚ)) : ℤ) : ℚ) ≤ 100 := by
      exact_mod_cast hr
    rw [div_le_iff (by norm_num : (0 : ℚ) < 10)]
    linarith

/-- Claim C9: the cas value driven by load_config is reassigned from the
clock period derived from the clock frequency before being driven — 2 when
the rounded period exceeds 10 ns, 3 otherwise — so it is independent of the
cas argument the caller passes, and for frequencies of at least 1 it equals 2
exactly when the frequency is at most 99. -/
theorem cas_latency_ignores_argument (f bl bt cas cas2 wbm : Nat)
    (hf : 1 ≤ f) :
    (load_config f bl bt cas wbm).cfg_cas_latency =
        (load_config f bl bt cas2 wbm).cfg_cas_latency ∧
      (load_config f bl bt cas wbm).cfg_cas_latency =
        (if 10 < get_clk_period f then 2 else 3) ∧
      ((load_config f bl bt cas wbm).cfg_cas_latency = 2 ↔ f ≤ 99) := by
  refine ⟨rfl, rfl, ?_⟩
  show (if 10 < get_clk_period f then 2 else 3) = 2 ↔ f ≤ 99
  rw [← get_clk_period_gt_ten_iff f hf]
  split_ifs with h
  · simp [h]
  · simp [h]

/-- Claim C9 witness: at 50 MHz (period 20 ns) the driven cas is 2 whatever
cas argument was passed. -/
theorem cas_latency_ignores_argument_witness :
    1 ≤ 50 ∧
      ((load_config 50 0 0 2 0).cfg_cas_latency =
          (load_config 50 0 0 7 0).cfg_cas_latency ∧
        (load_config 50 0 0 2 0).cfg_cas_latency =
          (if 10 < get_clk_period 50 then 2 else 3) ∧
        ((load_config 50 0 0 2 0).cfg_cas_latency = 2 ↔ 50 ≤ 99)) :=
  ⟨by decide, cas_latency_ignores_argument 50 0 0 2 7 0 (by decide)⟩

/-- Writing the same address/data pair twice equals writing it once. -/
theorem memWrite_idem (mem : Nat → Option Nat) (a d : Nat) :
    memWrite (memWrite mem a d) a d = memWrite mem a d := by
  funext x
  by_cases hx : x = a
  · simp [memWrite, hx]
  · simp [memWrite, hx]

/-- Execution invariant: when pool addresses are pairwise distinct and every
read was preceded by a write to its index (or the index is in the
already-written set `ws`, whose entries the memory already holds correctly),
every recorded read observation equals the pool's stored data. -/
theorem runOps_reads (pool : List (Nat × Nat))
    (hinj : ∀ a, a < pool.length → ∀ c, c < pool.length →
      (pool.getD a (0, 0)).1 = (pool.getD c (0, 0)).1 → a = c) :
    ∀ (ops : List (Bool × Nat)) (mem : Nat → Option Nat) (ws : List Nat),
      (∀ i, i ∈ ws → i < pool.length ∧
        mem ((pool.getD i (0, 0)).1) = some ((pool.getD i (0, 0)).2)) →
      (∀ k, k < ops.length → (ops.getD k (false, 0)).2 < pool.length) →
      (∀ k, k < ops.length → (ops.getD k (false, 0)).1 = true →
        (ops.getD k (false, 0)).2 ∈ ws ∨
          (false, (ops.getD k (false, 0)).2) ∈ ops.take k) →
      ∀ p, p ∈ runOps pool ops mem → p.2 = some ((pool.getD p.1 (0, 0)).2) := by
  intro ops
  induction ops with
  | nil => intro mem ws hws hrange hreads p hp; simp [runOps] at hp
  | cons hd rest ih =>
    obtain ⟨op, idx⟩ := hd
    intro mem ws hws hrange hreads p hp
    cases op with
    | true =>
      simp only [runOps, if_true, eq_self_iff_true] at hp
      rcases List.mem_cons.mp hp with hp | hp
      · have h0 := hreads 0 (by simp) (by simp)
        have hidx : idx ∈ ws := by
          simpa using h0
        have hmem := (hws idx hidx).2
        rw [hp]
        simpa using hmem
      · refine ih mem ws hws ?_ ?_ p hp
        · intro k hk
          have := hrange (k + 1) (by simpa using Nat.succ_lt_succ hk)
          simpa using this
        · intro k hk hr
          have hdisj := hreads (k + 1) (by simp only [List.length_cons]; omega)
            (by simpa only [List.getD_cons_succ] using hr)
          simp only [List.getD_cons_succ, List.take_succ_cons] at hdisj
          rcases hdisj with h | h
          · exact Or.inl h
          · rcases List.mem_cons.mp h with h2 | h2
            · exact absurd h2 (by simp)
            · exact Or.inr h2
    | false =>
      simp only [runOps, Bool.false_eq_true, if_false] at hp
      have hidxlt : idx < pool.length := by
        have := hrange 0 (by simp)
        simpa using this
      refine ih (memWrite mem ((pool.getD idx (0, 0)).1) ((pool.getD idx (0, 0)).2))
        (idx :: ws) ?_ ?_ ?_ p hp
      · intro i hi
        rcases List.mem_cons.mp hi with hi | hi
        · subst hi
          exact ⟨hidxlt, by simp [memWrite]⟩
        · obtain ⟨hlt, hmem⟩ := hws i hi
          refine ⟨hlt, ?_⟩
          by_cases haddr : (pool.getD i (0, 0)).1 = (pool.getD idx (0, 0)).1
          · have heq : i = idx := hinj i hlt idx hidxlt haddr
            subst heq
            simp [memWrite]
          · simp only [memWrite, if_neg haddr]
            exact hmem
      · intro k hk
        have := hrange (k + 1) (by simpa using Nat.succ_lt_succ hk)
        simpa using this
      · intro k hk hr
        have hdisj := hreads (k + 1) (by simp only [List.length_cons]; omega)
          (by simpa only [List.getD_cons_succ] using hr)
        simp only [List.getD_cons_succ, List.take_succ_cons] at hdisj
        rcases hdisj with h | h
        · exact Or.inl (List.mem_cons_of_mem _ h)
        · rcases List.mem_cons.mp h with h2 | h2
          · left
            have hsnd : (rest.getD k (false, 0)).2 = idx := by
              have := congrArg Prod.snd h2
              simpa using this
            rw [hsnd]
            exact List.mem_cons_self _ _
          · exact Or.inr h2

/-- Claim C10: every write at a pool index drives the immutable pool's data
for that index, so re-writing an already-valid index is idempotent — the
duplicate write changes neither the memory nor any later read observation —
and when the pool's addresses are pairwise distinct, every read of a
write-before-read sequence observes exactly its index's stored pool data: a
read can only mismatch if two distinct pool indices carry the same address. -/
theorem pool_data_consistency (pool : List (Nat × Nat))
    (ops : List (Bool × Nat)) (i : Nat) (tail : List (Bool × Nat))
    (mem : Nat → Option Nat)
    (hinj : ∀ a, a < pool.length → ∀ c, c < pool.length →
      (pool.getD a (0, 0)).1 = (pool.getD c (0, 0)).1 → a = c)
    (hrange : ∀ k, k < ops.length → (ops.getD k (false, 0)).2 < pool.length)
    (hreads : ∀ k, k < ops.length → (ops.getD k (false, 0)).1 = true →
      (false, (ops.getD k (false, 0)).2) ∈ ops.take k) :
    runOps pool ((false, i) :: (false, i) :: tail) mem =
        runOps pool ((false, i) :: tail) mem ∧
      ∀ p, p ∈ runOps pool ops (fun _ => none) →
        p.2 = some ((pool.getD p.1 (0, 0)).2) := by
  constructor
  · simp [runOps, memWrite_idem]
  · intro p hp
    refine runOps_reads pool hinj ops (fun _ => none) [] ?_ hrange ?_ p hp
    · intro j hj
      simp at hj
    · intro k hk hr
      exact Or.inr (hreads k hk hr)

/-- Claim C10 witness: a two-entry pool with distinct addresses and the
sequence write 0, read 0, write 1, read 1; both reads observe their pool
data, and a duplicate leading write is dropped from the observations. -/
theorem pool_data_consistency_witness :
    ((∀ a, a < ([(10, 5), (20, 6)] : List (Nat × Nat)).length →
        ∀ c, c < ([(10, 5), (20, 6)] : List (Nat × Nat)).length →
        (([(10, 5), (20, 6)] : List (Nat × Nat)).getD a (0, 0)).1 =
          (([(10, 5), (20, 6)] : List (Nat × Nat)).getD c (0, 0)).1 → a = c) ∧
      (∀ k, k < ([(false, 0), (true, 0), (false, 1), (true, 1)] : List (Bool × Nat)).length →
        (([(false, 0), (true, 0), (false, 1), (true, 1)] : List (Bool × Nat)).getD k (false, 0)).2 <
          ([(10, 5), (20, 6)] : List (Nat × Nat)).length) ∧
      (∀ k, k < ([(false, 0), (true, 0), (false, 1), (true, 1)] : List (Bool × Nat)).length →
        (([(false, 0), (true, 0), (false, 1), (true, 1)] : List (Bool × Nat)).getD k (false, 0)).1 = true →
        (false, (([(false, 0), (true, 0), (false, 1), (true, 1)] : List (Bool × Nat)).getD k (false, 0)).2) ∈
          ([(false, 0), (true, 0), (false, 1), (true, 1)] : List (Bool × Nat)).take k)) ∧
      (runOps [(10, 5), (20, 6)] ((false, 0) :: (false, 0) :: [(true, 0)]) (fun _ => none) =
          runOps [(10, 5), (20, 6)] ((false, 0) :: [(true, 0)]) (fun _ => none) ∧
        ∀ p, p ∈ runOps [(10, 5), (20, 6)]
            [(false, 0), (true, 0), (false, 1), (true, 1)] (fun _ => none) →
          p.2 = some ((([(10, 5), (20, 6)] : List (Nat × Nat)).getD p.1 (0, 0)).2)) :=
  ⟨⟨by decide, by decide, by decide⟩,
    pool_data_consistency [(10, 5), (20, 6)]
      [(false, 0), (true, 0), (false, 1), (true, 1)] 0 [(true, 0)] (fun _ => none)
      (by decide) (by decide) (by decide)⟩
